import Mathlib

/-!
Verification of the dogbeddb key-value store (src/storage.py, src/logical.py,
src/binary_tree.py) against its natural-language specification.

The backing file is embedded as a `List Nat` of bytes.  Python file semantics
are reproduced exactly: `seek` past the end followed by `read` yields fewer
bytes (possibly none), `read(n)` returns at most `n` bytes, and a write at a
position overwrites the bytes there and extends the file as needed.
-/

namespace DogBedDB

/-- Python `int.from_bytes(bs, "big")`: big-endian interpretation of a byte
string of any length (the empty string yields 0). -/
def intFromBytesBE (bs : List Nat) : Nat :=
  bs.foldl (fun acc b => acc * 256 + b) 0

/-- Python `n.to_bytes(4, "big")`. -/
def toBytes4 (n : Nat) : List Nat :=
  [n / 16777216 % 256, n / 65536 % 256, n / 256 % 256, n % 256]

/-- Python `n.to_bytes(8, "big")`. -/
def toBytes8 (n : Nat) : List Nat :=
  [n / 72057594037927936 % 256, n / 281474976710656 % 256,
   n / 1099511627776 % 256, n / 4294967296 % 256,
   n / 16777216 % 256, n / 65536 % 256, n / 256 % 256, n % 256]

/-- `Storage.write` (src/storage.py lines 57-70): seek to the end of the
file, remember that position as the address, and write `data` there raw.
Returns the address and the new file.  Note the source writes the payload
only: no length prefix is prepended. -/
def Storage.write (file : List Nat) (data : List Nat) : Nat × List Nat :=
  (file.length, file ++ data)

/-- `Storage.read` (src/storage.py lines 72-86): seek to `address`, read up
to 4 bytes as a big-endian length, then read up to that many further bytes.
The source performs no validation of any kind and has no failure path. -/
def Storage.read (file : List Nat) (address : Nat) : List Nat :=
  let lenBytes := (file.drop address).take 4
  let length := intFromBytesBE lenBytes
  ((file.drop address).drop 4).take length

/-- `Storage.commit_root_address` (src/storage.py lines 88-98): seek to
offset 0 and write the address as an 8-byte big-endian integer, overwriting
whatever bytes are there and extending the file if it is shorter. -/
def Storage.commitRootAddress (file : List Nat) (address : Nat) : List Nat :=
  toBytes8 address ++ file.drop 8

/-- The methods the `Storage` class in src/storage.py actually defines. -/
def Storage.methods : List String :=
  ["__init__", "_open_file", "lock", "unlock", "write", "read",
   "commit_root_address"]

/-- Python exceptions that the embedded operations can raise. -/
inductive PyErr where
  | keyError
  | attributeError
deriving DecidableEq

/-- `LogicalBase._refresh_tree_ref` (src/logical.py lines 73-78) evaluates
`self._storage.get_root_address()`.  Attribute lookup on a `Storage`
instance succeeds only for methods the class defines; otherwise Python
raises `AttributeError` before any call happens.  The `ok` branch (what the
method would return if it existed) is unreachable for this source. -/
def LogicalBase.refreshTreeRef : Except PyErr (Option Nat) :=
  if "get_root_address" ∈ Storage.methods then .ok none
  else .error .attributeError

/-- Modelled from the spec (refinement comparison for C5; this definition
follows the specification's words, not the source): a read that fails with
a CorruptionError when the address is out of range of the file or the
length prefix is inconsistent with the remaining file size, and otherwise
returns the payload. -/
def specCorruptionCheckedRead (file : List Nat) (address : Nat) :
    Except Unit (List Nat) :=
  if address + 4 ≤ file.length then
    let length := intFromBytesBE ((file.drop address).take 4)
    if address + 4 + length ≤ file.length then
      .ok (((file.drop address).drop 4).take length)
    else .error ()
  else .error ()

theorem intFromBytesBE_toBytes4 (n : Nat) (h : n < 4294967296) :
    intFromBytesBE (toBytes4 n) = n := by
  simp [intFromBytesBE, toBytes4]
  omega

/-- C1: the claim says `write(b)` appends a length prefix followed by `b` and
that `read` at the returned address recovers exactly `b`.  The source's
`write` appends the payload raw, while its own `read` expects the 4-byte
length prefix, so the pair does not round-trip: writing the single byte 65
to an empty file returns address 0, and reading address 0 interprets the
lone byte 65 as a length prefix and returns the empty byte string. -/
theorem c1_write_read_roundtrip_fails :
    Storage.read (Storage.write [] [65]).2 (Storage.write [] [65]).1 = [] ∧
    ([65] : List Nat) ≠ [] := by
  decide

/-- C4: the claim says every address returned by `Storage.write` lies at or
after the 8-byte header region and that `commit_root_address` overwrites
only the header slot.  The source never reserves a header: on a fresh empty
file the first `write` returns address 0, inside the header region, and a
subsequent `commit_root_address` then overwrites the first record's bytes
(here the record byte 9 at offset 0 is replaced). -/
theorem c4_write_lands_in_header_region :
    (Storage.write [] [9, 9, 9, 9, 9, 9, 9, 9, 9]).1 = 0 ∧
    ¬ 8 ≤ (Storage.write [] [9, 9, 9, 9, 9, 9, 9, 9, 9]).1 ∧
    (Storage.commitRootAddress [9, 9, 9, 9, 9, 9, 9, 9, 9] 16).take 8 ≠
      ([9, 9, 9, 9, 9, 9, 9, 9, 9] : List Nat).take 8 := by
  decide

/-- C5 counterexample: at address 5 of an empty file the claim demands a
CorruptionError (the address is out of range), but the source's `read`
returns normally with the empty byte string; its code has no failure path
at all. -/
theorem c5_read_never_raises_counterexample :
    specCorruptionCheckedRead [] 5 = .error () ∧ Storage.read [] 5 = [] :=
  ⟨rfl, rfl⟩

/-- C5 amended: `Storage.read` performs no validation and never raises.  At
an address holding a well-formed record (a 4-byte big-endian length prefix
followed by that many payload bytes) it returns the payload exactly, and at
an address at or past the end of the file it returns the empty byte string
rather than an error. -/
theorem c5_read_total_behavior (f pre payload g : List Nat) (a b : Nat)
    (hf : f = pre ++ toBytes4 payload.length ++ payload)
    (ha : a = pre.length)
    (hlen : payload.length < 4294967296)
    (hb : g.length ≤ b) :
    Storage.read f a = payload ∧ Storage.read g b = [] := by
  constructor
  · subst hf ha
    have hdrop : (pre ++ toBytes4 payload.length ++ payload).drop pre.length
        = toBytes4 payload.length ++ payload := by
      rw [List.append_assoc, List.drop_left]
    have htb : (toBytes4 payload.length).length = 4 := by
      simp [toBytes4]
    simp only [Storage.read, hdrop]
    have htake : (toBytes4 payload.length ++ payload).take 4
        = toBytes4 payload.length := by
      rw [← htb, List.take_left]
    have hdrop4 : (toBytes4 payload.length ++ payload).drop 4 = payload := by
      rw [← htb, List.drop_left]
    rw [htake, hdrop4, intFromBytesBE_toBytes4 _ hlen, List.take_length]
  · have : g.drop b = [] := List.drop_eq_nil_of_le hb
    simp [Storage.read, this]

/-- C5 witness for the amended theorem at a concrete record and a concrete
out-of-range address. -/
theorem c5_read_total_behavior_witness :
    Storage.read [0, 0, 0, 1, 7] 0 = [7] ∧ Storage.read [] 5 = [] :=
  c5_read_total_behavior [0, 0, 0, 1, 7] [] [7] [] 0 5 (by decide) rfl
    (by decide) (by decide)

/-- C7: the claim says `Storage` provides a `get_root_address` operation read
by the coordinator.  The `Storage` class in src/storage.py defines no such
method, so `LogicalBase._refresh_tree_ref` (src/logical.py line 78), which
invokes `self._storage.get_root_address()`, raises `AttributeError` instead
of returning a committed root address or none. -/
theorem c7_get_root_address_missing :
    "get_root_address" ∉ Storage.methods ∧
    LogicalBase.refreshTreeRef = .error .attributeError :=
  ⟨by decide, rfl⟩

/-! The reference and tree layer (src/logical.py, src/binary_tree.py).

A `ValueRef` (src/logical.py lines 120-191) holds an optional cached
referent and an optional storage address; values are embedded as `Nat`.

A `BinaryNodeRef` is a reference to a `BinaryNode`.  It is embedded as a
single inductive: `ref0 a` is a reference whose `_referent` is `None`
(with optional address `a`), and `refN l k v r len a` is a reference whose
`_referent` is the node `BinaryNode(left_ref := l, key := k,
value_ref := v, right_ref := r, length := len)` and whose own address is
`a`.  `ValueRef.get` in the source returns the cached referent when one is
present; its load-from-address branch (src/logical.py is cut off mid-line
at line 191) is never taken on the trees quantified over below, which are
`cached`: every reference either caches its referent or has no address. -/

structure ValueRef where
  referent : Option Nat
  address : Option Nat
deriving DecidableEq

inductive BinaryNodeRef : Type where
  | ref0 (address : Option Nat)
  | refN (left_ref : BinaryNodeRef) (key : Nat) (value_ref : ValueRef)
         (right_ref : BinaryNodeRef) (length : Nat) (address : Option Nat)
deriving DecidableEq

/-- The `address` property of a reference (src/logical.py lines 147-152). -/
def BinaryNodeRef.address : BinaryNodeRef → Option Nat
  | .ref0 a => a
  | .refN _ _ _ _ _ a => a

/-- The `length` field recorded in a reference's node, 0 for an absent
referent.  Used to state the size invariant. -/
def BinaryNodeRef.storedLength : BinaryNodeRef → Nat
  | .ref0 _ => 0
  | .refN _ _ _ _ len _ => len

/-- A tree is cached when every node reference either carries its referent
or has no address, and every value reference carries its referent.  On such
trees `_follow` never consults storage, so the embedding below is exact. -/
def cached : BinaryNodeRef → Bool
  | .ref0 a => a == none
  | .refN l _ v r _ _ => v.referent.isSome && cached l && cached r

/-- `BinaryTree._insert` (src/binary_tree.py lines 37-74).  The argument is
the (followed) subtree root.  An absent node yields a fresh leaf wrapped in
an unaddressed reference; otherwise the node is rebuilt via
`BinaryNode.from_node` (lines 190-208), which copies every field not
overridden — including `length`, which is therefore carried over unchanged
from the old node in all three branches. -/
def BinaryTree.insert : BinaryNodeRef → Nat → ValueRef → BinaryNodeRef
  | .ref0 _, key, value_ref =>
    .refN (.ref0 none) key value_ref (.ref0 none) 1 none
  | .refN l k v r len _, key, value_ref =>
    if key < k then .refN (BinaryTree.insert l key value_ref) k v r len none
    else if k < key then .refN l k v (BinaryTree.insert r key value_ref) len none
    else .refN l k value_ref r len none

/-- `BinaryTree._delete` (src/binary_tree.py lines 76-128).  Descent rebuilds
the current node via `from_node` (length again copied).  At the matching
node the source tests `node.left_ref.address is None` and
`node.right_ref.address is None` — the *addresses*, not the children's
presence — to pick the zero/one/two-children branch.  In the two-children
branch the source computes `left.length + new_right.length + 1` where
`new_right` is a `BinaryNodeRef`, a class that defines no `length`
attribute, so that branch always raises `AttributeError` (after building
`new_right`, which touches no storage on a cached tree). -/
def BinaryTree.delete : BinaryNodeRef → Nat → Except PyErr BinaryNodeRef
  | .ref0 _, _ => .error .keyError
  | .refN l k v r len _, key =>
    if key < k then
      match BinaryTree.delete l key with
      | .error e => .error e
      | .ok nl => .ok (.refN nl k v r len none)
    else if k < key then
      match BinaryTree.delete r key with
      | .error e => .error e
      | .ok nr => .ok (.refN l k v nr len none)
    else
      if l.address = none ∧ r.address = none then .ok (.ref0 none)
      else if l.address = none then .ok r
      else if r.address = none then .ok l
      else .error .attributeError

/-- `BinaryTree._get` (src/binary_tree.py lines 14-35): descend comparing
keys; on equality return the followed value reference's referent; reaching
an absent reference raises `KeyError`. -/
def BinaryTree.get : BinaryNodeRef → Nat → Except PyErr (Option Nat)
  | .ref0 _, _ => .error .keyError
  | .refN l k v r _ _, key =>
    if key < k then BinaryTree.get l key
    else if k < key then BinaryTree.get r key
    else .ok v.referent

/-- Actual number of nodes reachable through cached references. -/
def count : BinaryNodeRef → Nat
  | .ref0 _ => 0
  | .refN l _ _ r _ _ => 1 + count l + count r

/-- The size invariant of the spec: every node's recorded `length` equals
one plus the lengths of its subtrees (absent = 0). -/
def sizeOk : BinaryNodeRef → Bool
  | .ref0 _ => true
  | .refN l _ _ r len _ => (len == 1 + count l + count r) && sizeOk l && sizeOk r

/-- Python truthiness of the `_address` field: `not self._address` is true
both for `None` and for the integer 0. -/
def truthy : Option Nat → Bool
  | none => false
  | some 0 => false
  | some (_ + 1) => true

/-- Stand-in for the external `pickle.dumps` serializer used by
`ValueRef.referent_to_string`.  Nothing below depends on the encoding
beyond its being a nonempty byte string, which holds for every pickle. -/
def pickleDumps (v : Nat) : List Nat := [128, v % 256]

/-- `ValueRef.store` (src/logical.py lines 136-145): if a referent is
cached and the address is falsy (`not self._address`, so `None` *or* 0),
call `prepare_to_store` (a no-op for plain value references), write the
encoded referent at the end of the file and record the returned address;
otherwise do nothing.  The method body has no return statement. -/
def ValueRef.store : ValueRef → List Nat → ValueRef × List Nat
  | ⟨some v, a⟩, file =>
    if truthy a then (⟨some v, a⟩, file)
    else
      let (addr, file') := Storage.write file (pickleDumps v)
      (⟨some v, some addr⟩, file')
  | ⟨none, a⟩, file => (⟨none, a⟩, file)

/-- Stand-in for `pickle.dumps` of the node record dictionary built by
`BinaryNodeRef.referent_to_string` (src/binary_tree.py lines 227-246): the
record carries the child and value addresses, the key and the length.  As
with `pickleDumps`, only nonemptiness matters below. -/
def pickleNodeRecord (_leftAddr : Option Nat) (key : Nat)
    (_valueAddr : Option Nat) (_rightAddr : Option Nat) (len : Nat) : List Nat :=
  [128, key % 256, len % 256]

/-- `BinaryNodeRef.store`, i.e. `ValueRef.store` with the
`BinaryNodeRef.prepare_to_store` hook (src/binary_tree.py lines 217-225):
when a referent is cached and the address falsy, first store the node's
value, left and right references in that order, then write the encoded
node record and record its address. -/
def BinaryNodeRef.store : BinaryNodeRef → List Nat → BinaryNodeRef × List Nat
  | .ref0 a, file => (.ref0 a, file)
  | .refN l k v r len a, file =>
    if truthy a then (.refN l k v r len a, file)
    else
      let (v', f1) := ValueRef.store v file
      let (l', f2) := BinaryNodeRef.store l f1
      let (r', f3) := BinaryNodeRef.store r f2
      let (addr, f4) := Storage.write f3
        (pickleNodeRecord l'.address k v'.address r'.address len)
      (.refN l' k v' r' len (some addr), f4)

/-- Modelled from the spec: `Storage.get_root_address` is absent from
src/storage.py (see C7).  The spec says it reads the fixed-width header
slot and returns none if the store has never been committed (the header
still holds the creation-time sentinel, e.g. 0 — a fresh file is empty). -/
def specGetRootAddress (file : List Nat) : Option Nat :=
  if file.length < 8 then none
  else if intFromBytesBE (file.take 8) = 0 then none
  else some (intFromBytesBE (file.take 8))

/-- `LogicalBase.commit` (src/logical.py lines 66-71): store the current
root reference, then `commit_root_address(self._tree_ref.address)`.  When
that address is still `None`, `address.to_bytes(8, "big")` inside
`commit_root_address` (src/storage.py line 96) raises `AttributeError`
before anything is written, so the file is returned unchanged alongside
the error. -/
def LogicalBase.commit (treeRef : BinaryNodeRef) (file : List Nat) :
    Except PyErr Unit × List Nat :=
  let (r, f1) := BinaryNodeRef.store treeRef file
  match r.address with
  | none => (.error .attributeError, f1)
  | some a => (.ok (), Storage.commitRootAddress f1 a)

/-- C2: the claim says every node's size is recomputed fresh after every
insert or delete.  `BinaryNode.from_node` copies `length` forward
unchanged, so after inserting 1 and then 2 starting from the empty tree the
root still records length 1 while its subtree holds 2 nodes: the size
invariant fails. -/
theorem c2_size_invariant_fails_after_insert :
    sizeOk (BinaryTree.insert
      (BinaryTree.insert (.ref0 none) 1 ⟨some 10, none⟩) 2 ⟨some 20, none⟩)
      = false ∧
    (BinaryTree.insert
      (BinaryTree.insert (.ref0 none) 1 ⟨some 10, none⟩) 2
        ⟨some 20, none⟩).storedLength = 1 ∧
    count (BinaryTree.insert
      (BinaryTree.insert (.ref0 none) 1 ⟨some 10, none⟩) 2 ⟨some 20, none⟩)
      = 2 := by
  decide

/-- C3: the claim says deleting a key from any tree containing it — committed
or not — preserves all other keys.  On the uncommitted two-node tree built
by inserting 2 then 1, the matching node for key 2 has a live left child,
but both child references are still unaddressed, so `_delete` takes its
"leaf" branch and returns an absent reference: the whole tree is discarded
and key 1, previously mapped to 10, is lost. -/
theorem c3_delete_on_uncommitted_tree_loses_other_keys :
    BinaryTree.get
      (BinaryTree.insert (BinaryTree.insert (.ref0 none) 2 ⟨some 20, none⟩) 1
        ⟨some 10, none⟩) 1 = .ok (some 10) ∧
    BinaryTree.delete
      (BinaryTree.insert (BinaryTree.insert (.ref0 none) 2 ⟨some 20, none⟩) 1
        ⟨some 10, none⟩) 2 = .ok (.ref0 none) ∧
    BinaryTree.get (.ref0 none) 1 = .error .keyError :=
  ⟨rfl, rfl, rfl⟩

/-- C6: the claim says a reference that already has an address — including
address 0 — is never re-stored and keeps its address.  The guard
`not self._address` treats address 0 as unaddressed, so storing a reference
addressed at 0 (attainable: the first write on this headerless store
returns offset 0) writes a fresh record and reassigns the address: here a
reference stored at 0 is re-stored at 9 and the 9-byte file grows. -/
theorem c6_store_reassigns_address_zero :
    (ValueRef.store ⟨some 5, some 0⟩ [0, 0, 0, 0, 0, 0, 0, 0, 0]).1.address
      = some 9 ∧
    some (9 : Nat) ≠ some 0 ∧
    ([0, 0, 0, 0, 0, 0, 0, 0, 0] : List Nat).length <
      (ValueRef.store ⟨some 5, some 0⟩ [0, 0, 0, 0, 0, 0, 0, 0, 0]).2.length := by
  decide

/-- C10: committing a session that never performed a set or delete.  The
fresh root reference has neither referent nor address (the modelled
`get_root_address` returns none on the never-committed store), `store` is a
no-op leaving it unaddressed, and `commit_root_address(None)` raises before
writing, leaving the file — and hence the header — untouched. -/
theorem c10_commit_fresh_session_fails (file : List Nat) :
    specGetRootAddress [] = none ∧
    LogicalBase.commit (.ref0 (specGetRootAddress [])) file
      = (.error .attributeError, file) :=
  ⟨rfl, rfl⟩

/-! BST ordering (C8).  `bounded t lo hi` is the classical bounded-BST
predicate: every key of `t` lies strictly between the optional bounds, and
both subtrees are bounded with the node's key as the tightened bound. -/

/-- Lower bound check: `a < k` for every `a` in the optional bound. -/
def okLo : Option Nat → Nat → Bool
  | none, _ => true
  | some a, k => decide (a < k)

/-- Upper bound check: `k < b` for every `b` in the optional bound. -/
def okHi : Nat → Option Nat → Bool
  | _, none => true
  | k, some b => decide (k < b)

/-- Bounded binary-search-tree predicate over cached references. -/
def bounded : BinaryNodeRef → Option Nat → Option Nat → Bool
  | .ref0 _, _, _ => true
  | .refN l k _ r _ _, lo, hi =>
    okLo lo k && okHi k hi && bounded l lo (some k) && bounded r (some k) hi

/-- Keys in in-order traversal order. -/
def inorder : BinaryNodeRef → List Nat
  | .ref0 _ => []
  | .refN l k _ r _ _ => inorder l ++ k :: inorder r

/-- One mutating operation of the coordinator layer. -/
inductive Op where
  | set (key value : Nat)
  | del (key : Nat)

/-- `LogicalBase.set` / `LogicalBase.delete` (src/logical.py lines 31-64)
applied to the in-memory root: `set` wraps the value in a fresh `ValueRef`
and replaces the root with `_insert`'s result; `delete` replaces it with
`_delete`'s result, and when `_delete` raises, the assignment never happens
and the root is unchanged. -/
def runOp (t : BinaryNodeRef) : Op → BinaryNodeRef
  | .set key value => BinaryTree.insert t key ⟨some value, none⟩
  | .del key =>
    match BinaryTree.delete t key with
    | .ok res => res
    | .error _ => t

/-- A whole session of mutating operations starting from the empty tree. -/
def run (ops : List Op) : BinaryNodeRef := ops.foldl runOp (.ref0 none)

theorem okLo_trans (lo : Option Nat) {k k' : Nat} (h : okLo lo k = true)
    (hk : k < k') : okLo lo k' = true := by
  cases lo with
  | none => rfl
  | some a =>
    simp only [okLo, decide_eq_true_eq] at h ⊢
    omega

theorem okHi_trans (hi : Option Nat) {k k' : Nat} (h : okHi k hi = true)
    (hk : k' < k) : okHi k' hi = true := by
  cases hi with
  | none => rfl
  | some b =>
    simp only [okHi, decide_eq_true_eq] at h ⊢
    omega

theorem okLo_mem {lo : Option Nat} {k : Nat} (h : okLo lo k = true) :
    ∀ a ∈ lo, a < k := by
  cases lo <;> simp_all [okLo]

theorem okHi_mem {k : Nat} {hi : Option Nat} (h : okHi k hi = true) :
    ∀ b ∈ hi, k < b := by
  cases hi <;> simp_all [okHi]

theorem bounded_loosen_lo (k : Nat) (lo : Option Nat) (hlo : okLo lo k = true) :
    ∀ (t : BinaryNodeRef) (hi : Option Nat),
      bounded t (some k) hi = true → bounded t lo hi = true
  | .ref0 _, _, _ => rfl
  | .refN l k' v r len a, hi, h => by
    simp only [bounded, Bool.and_eq_true] at h ⊢
    obtain ⟨⟨⟨h1, h2⟩, h3⟩, h4⟩ := h
    have hkk' : k < k' := by simpa [okLo] using h1
    exact ⟨⟨⟨okLo_trans lo hlo hkk', h2⟩,
      bounded_loosen_lo k lo hlo l (some k') h3⟩, h4⟩

theorem bounded_loosen_hi (k : Nat) (hi : Option Nat) (hhi : okHi k hi = true) :
    ∀ (t : BinaryNodeRef) (lo : Option Nat),
      bounded t lo (some k) = true → bounded t lo hi = true
  | .ref0 _, _, _ => rfl
  | .refN l k' v r len a, lo, h => by
    simp only [bounded, Bool.and_eq_true] at h ⊢
    obtain ⟨⟨⟨h1, h2⟩, h3⟩, h4⟩ := h
    have hk'k : k' < k := by simpa [okHi] using h2
    exact ⟨⟨⟨h1, okHi_trans hi hhi hk'k⟩, h3⟩,
      bounded_loosen_hi k hi hhi r (some k') h4⟩

theorem bounded_insert :
    ∀ (t : BinaryNodeRef) (lo hi : Option Nat) (key : Nat) (v : ValueRef),
      bounded t lo hi = true → okLo lo key = true → okHi key hi = true →
      bounded (BinaryTree.insert t key v) lo hi = true
  | .ref0 a, lo, hi, key, v, _, hlo, hhi => by
    simp [BinaryTree.insert, bounded, hlo, hhi]
  | .refN l k vr r len a, lo, hi, key, v, hb, hlo, hhi => by
    simp only [bounded, Bool.and_eq_true] at hb
    obtain ⟨⟨⟨h1, h2⟩, h3⟩, h4⟩ := hb
    by_cases hk : key < k
    · simp only [BinaryTree.insert, hk, if_true, bounded, Bool.and_eq_true]
      refine ⟨⟨⟨h1, h2⟩, bounded_insert l lo (some k) key v h3 hlo ?_⟩, h4⟩
      simp [okHi, hk]
    · by_cases hk2 : k < key
      · simp only [BinaryTree.insert, hk, if_false, hk2, if_true, bounded,
          Bool.and_eq_true]
        refine ⟨⟨⟨h1, h2⟩, h3⟩, bounded_insert r (some k) hi key v h4 ?_ hhi⟩
        simp [okLo, hk2]
      · have hkey : key = k := by omega
        subst hkey
        simp only [BinaryTree.insert, hk, hk2, if_false, bounded,
          Bool.and_eq_true]
        exact ⟨⟨⟨h1, h2⟩, h3⟩, h4⟩

theorem bounded_delete :
    ∀ (t : BinaryNodeRef) (lo hi : Option Nat) (key : Nat)
      (res : BinaryNodeRef), bounded t lo hi = true →
      BinaryTree.delete t key = .ok res → bounded res lo hi = true
  | .ref0 _, _, _, _, _, _, hd => by simp [BinaryTree.delete] at hd
  | .refN l k v r len a, lo, hi, key, res, hb, hd => by
    simp only [bounded, Bool.and_eq_true] at hb
    obtain ⟨⟨⟨h1, h2⟩, h3⟩, h4⟩ := hb
    by_cases hk : key < k
    · simp only [BinaryTree.delete, hk, if_true] at hd
      cases hdl : BinaryTree.delete l key with
      | error e => rw [hdl] at hd; exact absurd hd (by simp)
      | ok nl =>
        rw [hdl] at hd
        simp only [Except.ok.injEq] at hd
        subst hd
        simp only [bounded, Bool.and_eq_true]
        exact ⟨⟨⟨h1, h2⟩, bounded_delete l lo (some k) key nl h3 hdl⟩, h4⟩
    · by_cases hk2 : k < key
      · simp only [BinaryTree.delete, hk, if_false, hk2, if_true] at hd
        cases hdr : BinaryTree.delete r key with
        | error e => rw [hdr] at hd; exact absurd hd (by simp)
        | ok nr =>
          rw [hdr] at hd
          simp only [Except.ok.injEq] at hd
          subst hd
          simp only [bounded, Bool.and_eq_true]
          exact ⟨⟨⟨h1, h2⟩, h3⟩, bounded_delete r (some k) hi key nr h4 hdr⟩
      · simp only [BinaryTree.delete, hk, hk2, if_false] at hd
        by_cases hla : l.address = none
        · by_cases hra : r.address = none
          · simp only [hla, hra, and_self, if_true, Except.ok.injEq] at hd
            subst hd
            rfl
          · simp [hla, hra] at hd
            subst hd
            exact bounded_loosen_lo k lo h1 r hi h4
        · by_cases hra : r.address = none
          · simp [hla, hra] at hd
            subst hd
            exact bounded_loosen_hi k hi h2 l lo h3
          · simp [hla, hra] at hd


theorem bounded_sorted :
    ∀ (t : BinaryNodeRef) (lo hi : Option Nat), bounded t lo hi = true →
      List.Pairwise (· < ·) (inorder t) ∧
      ∀ x ∈ inorder t, (∀ a ∈ lo, a < x) ∧ (∀ b ∈ hi, x < b)
  | .ref0 _, _, _, _ => by simp [inorder]
  | .refN l k v r len a, lo, hi, hb => by
    simp only [bounded, Bool.and_eq_true] at hb
    obtain ⟨⟨⟨h1, h2⟩, h3⟩, h4⟩ := hb
    obtain ⟨pl, bl⟩ := bounded_sorted l lo (some k) h3
    obtain ⟨pr, br⟩ := bounded_sorted r (some k) hi h4
    constructor
    · simp only [inorder]
      rw [List.pairwise_append]
      refine ⟨pl, ?_, ?_⟩
      · rw [List.pairwise_cons]
        exact ⟨fun b hbm => (br b hbm).1 k (by simp), pr⟩
      · intro x hx y hy
        have hxk : x < k := (bl x hx).2 k (by simp)
        rcases List.mem_cons.mp hy with hy | hy
        · exact hy ▸ hxk
        · exact Nat.lt_trans hxk ((br y hy).1 k (by simp))
    · intro x hx
      simp only [inorder, List.mem_append, List.mem_cons] at hx
      rcases hx with hx | hx | hx
      · refine ⟨(bl x hx).1, fun b hbm => ?_⟩
        exact Nat.lt_trans ((bl x hx).2 k (by simp)) (okHi_mem h2 b hbm)
      · subst hx
        exact ⟨okLo_mem h1, okHi_mem h2⟩
      · refine ⟨fun a ham => ?_, (br x hx).2⟩
        exact Nat.lt_trans (okLo_mem h1 a ham) ((br x hx).1 k (by simp))

theorem runOp_bounded (t : BinaryNodeRef) (op : Op)
    (h : bounded t none none = true) : bounded (runOp t op) none none = true := by
  cases op with
  | set key value => exact bounded_insert t none none key ⟨some value, none⟩ h rfl rfl
  | del key =>
    cases hd : BinaryTree.delete t key with
    | ok res =>
      simp only [runOp, hd]
      exact bounded_delete t none none key res h hd
    | error e => simp only [runOp, hd]; exact h

theorem run_bounded (ops : List Op) : bounded (run ops) none none = true := by
  suffices h : ∀ t, bounded t none none = true →
      bounded (ops.foldl runOp t) none none = true from h _ rfl
  induction ops with
  | nil => exact fun t h => h
  | cons op ops ih => exact fun t h => ih _ (runOp_bounded t op h)

/-- C8: after any sequence of insert and delete operations starting from the
empty tree, the in-order traversal of the resulting tree is strictly
increasing.  (Deletes that raise leave the root unchanged; deletes that
return replace the matched subtree by an absent reference or promote a
child, both of which preserve the search ordering.) -/
theorem c8_inorder_strictly_increasing (ops : List Op) :
    List.Pairwise (· < ·) (inorder (run ops)) :=
  (bounded_sorted (run ops) none none (run_bounded ops)).1

/-! Structural sharing (C9).  `InsFrame key t res` says the reference `res`
returned by inserting `key` into `t` was produced by rebuilding only the
nodes on the search path for `key`: each rebuilt node carries a fresh
unaddressed reference, keeps its key, and keeps the untouched sibling child
reference (and value reference) *equal as a value, address included* to the
original's.  `DelFrame` says the same for a completed delete, whose match
case either returns an absent reference or promotes one of the matched
node's own child references unchanged. -/

def InsFrame (key : Nat) : BinaryNodeRef → BinaryNodeRef → Prop
  | .ref0 _, res => res.address = none
  | .refN l k v r _ _, res =>
    match res with
    | .ref0 _ => False
    | .refN l' k' v' r' _ a' =>
      a' = none ∧ k' = k ∧
      (if key < k then v' = v ∧ r' = r ∧ InsFrame key l l'
       else if k < key then v' = v ∧ l' = l ∧ InsFrame key r r'
       else l' = l ∧ r' = r)

def DelFrame (key : Nat) : BinaryNodeRef → BinaryNodeRef → Prop
  | .ref0 _, _ => False
  | .refN l k v r _ _, res =>
    if key < k then
      match res with
      | .ref0 _ => False
      | .refN l' k' v' r' _ a' =>
        a' = none ∧ k' = k ∧ v' = v ∧ r' = r ∧ DelFrame key l l'
    else if k < key then
      match res with
      | .ref0 _ => False
      | .refN l' k' v' r' _ a' =>
        a' = none ∧ k' = k ∧ v' = v ∧ l' = l ∧ DelFrame key r r'
    else
      res = .ref0 none ∨ res = r ∨ res = l

/-- The frame property of `_delete` stated over its `Except` result: when
the delete completes, its result satisfies `DelFrame`; when it raises, the
coordinator keeps the old root and nothing at all is rebuilt. -/
def DelFrameOk (key : Nat) (t : BinaryNodeRef) : Prop :=
  match BinaryTree.delete t key with
  | .ok res => DelFrame key t res
  | .error _ => True

theorem insFrame_insert :
    ∀ (t : BinaryNodeRef) (key : Nat) (v : ValueRef),
      InsFrame key t (BinaryTree.insert t key v)
  | .ref0 a, key, v => by
    simp [BinaryTree.insert, InsFrame, BinaryNodeRef.address]
  | .refN l k vr r len a, key, v => by
    by_cases hk : key < k
    · simp only [BinaryTree.insert, hk, if_true, InsFrame]
      simp [insFrame_insert l key v]
    · by_cases hk2 : k < key
      · simp only [BinaryTree.insert, hk, if_false, hk2, if_true, InsFrame]
        simp [hk, insFrame_insert r key v]
      · simp only [BinaryTree.insert, hk, hk2, if_false, InsFrame]
        simp [hk, hk2]

theorem delFrame_delete :
    ∀ (t : BinaryNodeRef) (key : Nat) (res : BinaryNodeRef),
      BinaryTree.delete t key = .ok res → DelFrame key t res
  | .ref0 _, key, res, hd => by simp [BinaryTree.delete] at hd
  | .refN l k v r len a, key, res, hd => by
    by_cases hk : key < k
    · simp only [BinaryTree.delete, hk, if_true] at hd
      cases hdl : BinaryTree.delete l key with
      | error e => rw [hdl] at hd; exact absurd hd (by simp)
      | ok nl =>
        rw [hdl] at hd
        simp only [Except.ok.injEq] at hd
        subst hd
        simp only [DelFrame, hk, if_true]
        simp [delFrame_delete l key nl hdl]
    · by_cases hk2 : k < key
      · simp only [BinaryTree.delete, hk, if_false, hk2, if_true] at hd
        cases hdr : BinaryTree.delete r key with
        | error e => rw [hdr] at hd; exact absurd hd (by simp)
        | ok nr =>
          rw [hdr] at hd
          simp only [Except.ok.injEq] at hd
          subst hd
          simp only [DelFrame, hk, hk2, if_false, if_true]
          simp [hk, delFrame_delete r key nr hdr]
      · simp only [BinaryTree.delete, hk, hk2, if_false] at hd
        simp only [DelFrame, hk, hk2, if_false]
        by_cases hla : l.address = none
        · by_cases hra : r.address = none
          · simp only [hla, hra, and_self, if_true, Except.ok.injEq] at hd
            subst hd
            exact Or.inl rfl
          · simp [hla, hra] at hd
            subst hd
            exact Or.inr (Or.inl rfl)
        · by_cases hra : r.address = none
          · simp [hla, hra] at hd
            subst hd
            exact Or.inr (Or.inr rfl)
          · simp [hla, hra] at hd

theorem delFrameOk_all (key : Nat) (t : BinaryNodeRef) : DelFrameOk key t := by
  cases hd : BinaryTree.delete t key with
  | ok res =>
    simp only [DelFrameOk, hd]
    exact delFrame_delete t key res hd
  | error e => simp only [DelFrameOk, hd]

/-- C9: on any cached tree, inserting a key rebuilds — as new nodes wrapped
in fresh unaddressed references — exactly the nodes on the search path,
keeping every off-path sibling subtree's reference (address included)
unchanged by value; a delete that completes does the same along its descent
and, at the matched node, returns an absent reference or one of the node's
own child references unchanged.  (A delete that raises leaves the root —
and hence every reference — untouched.) -/
theorem c9_structural_sharing (t : BinaryNodeRef) (key : Nat) (v : ValueRef)
    (_hc : cached t = true) :
    InsFrame key t (BinaryTree.insert t key v) ∧ DelFrameOk key t :=
  ⟨insFrame_insert t key v, delFrameOk_all key t⟩

/-- C9 witness: a cached, committed single-node tree (address 42). -/
theorem c9_structural_sharing_witness :
    InsFrame 3 (.refN (.ref0 none) 3 ⟨some 30, none⟩ (.ref0 none) 1 (some 42))
      (BinaryTree.insert
        (.refN (.ref0 none) 3 ⟨some 30, none⟩ (.ref0 none) 1 (some 42)) 3
        ⟨some 7, none⟩) ∧
    DelFrameOk 3 (.refN (.ref0 none) 3 ⟨some 30, none⟩ (.ref0 none) 1 (some 42)) :=
  c9_structural_sharing
    (.refN (.ref0 none) 3 ⟨some 30, none⟩ (.ref0 none) 1 (some 42)) 3
    ⟨some 7, none⟩ (by decide)

end DogBedDB
